import Mathlib

/-!
Verification of the crawl engine of tomasGonz67/cadooga-text-crawler.

The engine lives in `src/crawler.py` (class `TextCrawler`).  This file gives a
shallow embedding of the engine: Python strings are `String`/`List Char`, the
parsed HTML document (the external BeautifulSoup collaborator) is a tree of
nodes, the network is an oracle `Net` mapping a URL to an optional HTTP
response, and the stateful crawl loop is explicit state passing over a
`CrawlerState` record.  `time.sleep`, logging output, the progress callback
and the (disabled-by-default) database hook have no effect on the modelled
state; fetch calls and `logger.error` emissions are recorded in ghost trace
fields (`fetchLog`, `errorLog`, `extractLog`) so that claims about "a fetch
occurs" / "the error is logged" are statable.
-/

/-! ## Python string helpers -/

/-- The ASCII whitespace characters stripped by Python's `str.strip()`
(space, tab, newline, carriage return, vertical tab, form feed). -/
def pyWhitespace (c : Char) : Bool :=
  c = ' ' || c = '\t' || c = '\n' || c = '\r' || c = '\x0b' || c = '\x0c'

/-- Python `str.strip()` on a character list: drop leading and trailing
whitespace. -/
def pyStrip (l : List Char) : List Char :=
  ((l.dropWhile pyWhitespace).reverse.dropWhile pyWhitespace).reverse

/-- Python `str.splitlines()` restricted to the line boundaries `\n`, `\r`
and `\r\n` (the only ones the crawler's inputs contain): split at each
boundary, without a trailing empty line for a trailing boundary, and with
`"".splitlines() = []`. -/
def pySplitlinesGo (cur : List Char) : List Char → List (List Char)
  | [] => [cur.reverse]
  | '\r' :: '\n' :: rest =>
      cur.reverse :: (if rest.isEmpty then [] else pySplitlinesGo [] rest)
  | '\r' :: rest =>
      cur.reverse :: (if rest.isEmpty then [] else pySplitlinesGo [] rest)
  | '\n' :: rest =>
      cur.reverse :: (if rest.isEmpty then [] else pySplitlinesGo [] rest)
  | c :: rest => pySplitlinesGo (c :: cur) rest

/-- Python `str.splitlines()` (see `pySplitlinesGo`). -/
def pySplitlines (l : List Char) : List (List Char) :=
  if l.isEmpty then [] else pySplitlinesGo [] l

/-- Prepend a character to the first piece of a split result. -/
def consHead (c : Char) : List (List Char) → List (List Char)
  | [] => [[c]]
  | p :: ps => (c :: p) :: ps

/-- Python `str.split("  ")`: cut at each leftmost, non-overlapping
occurrence of two consecutive spaces, keeping empty pieces
(`"".split("  ") = [""]`).  This is the split `_extract_text` performs on
each stripped line (src/crawler.py line 170). -/
def splitTwoSpaces : List Char → List (List Char)
  | [] => [[]]
  | ' ' :: ' ' :: rest => [] :: splitTwoSpaces rest
  | c :: rest => consHead c (splitTwoSpaces rest)

/-- Split at each maximal run of two-or-more spaces, the wording used by the
specification ("split each trimmed line on runs of two-or-more spaces into
phrases"). -/
def splitSpaceRuns : List Char → List (List Char)
  | [] => [[]]
  | ' ' :: ' ' :: rest =>
      [] :: splitSpaceRuns (rest.dropWhile (fun c => c = ' '))
  | c :: rest => consHead c (splitSpaceRuns rest)
termination_by l => l.length
decreasing_by
  · simp only [List.length_cons]
    have h := (List.dropWhile_sublist (l := rest) (p := fun c => c = ' ')).length_le
    omega
  · simp

/-! ## HTML document model

The crawler hands raw markup to BeautifulSoup (an external collaborator,
spec section 2).  A parsed document is modelled as a forest of nodes in
first-child / next-sibling form (a plain inductive, so that every traversal
is structurally recursive): `elem tag attrs children next` is an element
followed by its right sibling `next`, `text s next` a text node, and `nil`
the end of a sibling list.  A raw HTML string is identified with its parse
tree, so the `html` field of a page record carries the document directly
and the re-parse performed by `_extract_links` is the identity. -/

/-- A parsed HTML forest in first-child / next-sibling form. -/
inductive HTree where
  | nil
  | elem (tag : String) (attrs : List (String × String)) (children : HTree) (next : HTree)
  | text (s : String) (next : HTree)
deriving DecidableEq

/-- A parsed document: a forest of nodes. -/
abbrev HDoc := HTree

/-- `soup(["script", "style"])` followed by `decompose()`
(src/crawler.py lines 162-163): remove every `script` and every `style`
element, together with its entire subtree. -/
def stripScriptStyle : HDoc → HDoc
  | HTree.nil => HTree.nil
  | HTree.elem tag attrs children next =>
      if tag = "script" || tag = "style" then stripScriptStyle next
      else HTree.elem tag attrs (stripScriptStyle children) (stripScriptStyle next)
  | HTree.text s next => HTree.text s (stripScriptStyle next)

/-- BeautifulSoup `get_text()`: concatenate all text nodes in document
order. -/
def getText : HDoc → String
  | HTree.nil => ""
  | HTree.elem _ _ children next => getText children ++ getText next
  | HTree.text s next => s ++ getText next

/-- First value of an attribute in an attribute list (BeautifulSoup
`tag['name']` / `tag.get('name')`). -/
def getAttr (name : String) : List (String × String) → Option String
  | [] => none
  | (k, v) :: rest => if k = name then some v else getAttr name rest

/-- `soup.find(tag)`: the first element with the given tag, in depth-first
document order (returned with its sibling chain pruned). -/
def findElem (tag : String) : HDoc → Option HDoc
  | HTree.nil => none
  | HTree.elem t attrs children next =>
      if t = tag then some (HTree.elem t attrs children HTree.nil)
      else
        match findElem tag children with
        | some n => some n
        | none => findElem tag next
  | HTree.text _ next => findElem tag next

/-- `soup.find('meta', attrs={'name': 'description'})`: the first `meta`
element whose `name` attribute is `description`, returning its attribute
list. -/
def findMetaDescription : HDoc → Option (List (String × String))
  | HTree.nil => none
  | HTree.elem t attrs children next =>
      if t = "meta" && getAttr "name" attrs = some "description" then some attrs
      else
        match findMetaDescription children with
        | some a => some a
        | none => findMetaDescription next
  | HTree.text _ next => findMetaDescription next

/-- `soup.find_all('a', href=True)` followed by `link['href']`
(src/crawler.py lines 189-190): the href values of all anchor elements that
have one, in depth-first document order. -/
def anchorHrefs : HDoc → List String
  | HTree.nil => []
  | HTree.elem t attrs children next =>
      (if t = "a" then
        match getAttr "href" attrs with
        | some h => [h]
        | none => []
      else []) ++ anchorHrefs children ++ anchorHrefs next
  | HTree.text _ next => anchorHrefs next

/-! ## Text extraction (`TextCrawler._extract_text`, src/crawler.py 151-173) -/

/-- The whitespace-cleanup pipeline of `_extract_text` applied to the string
`soup.get_text()` returns (src/crawler.py lines 169-171):
split into lines, strip each line, split each stripped line on `"  "`,
strip each piece, drop empty pieces, join with single spaces. -/
def cleanText (t : List Char) : List Char :=
  let lines := (pySplitlines t).map pyStrip
  let chunks := (lines.map splitTwoSpaces).flatten.map pyStrip
  List.intercalate [' '] (chunks.filter (fun p => !p.isEmpty))

/-- The same pipeline with the split described by the specification's words:
"split each trimmed line on runs of two-or-more spaces into phrases, trim
each phrase, discard empty phrases, and join all surviving phrases with a
single space". -/
def specCleanText (t : List Char) : List Char :=
  let lines := (pySplitlines t).map pyStrip
  let chunks := (lines.map splitSpaceRuns).flatten.map pyStrip
  List.intercalate [' '] (chunks.filter (fun p => !p.isEmpty))

/-- `TextCrawler._extract_text`: decompose script/style elements, take the
remaining visible text, and clean its whitespace.  (In `_fetch_page` the
decomposition mutates the soup before the title/description lookups; the
callers below apply `stripScriptStyle` in the same order.) -/
def extract_text (doc : HDoc) : String :=
  String.mk (cleanText (getText (stripScriptStyle doc)).data)

/-! ## URL parsing (the external `urllib.parse` collaborator)

`_is_valid_url` and `_extract_links` call `urlparse` and `urljoin` from the
Python standard library.  The relevant behaviour of `urllib.parse.urlsplit`,
`urlunsplit` and `urljoin` on http(s)-style URLs is modelled below
(the rarely used `params` component — a `;` in the last path segment — and
the special-casing of invalid ports, which can make `urlparse` raise, are
not modelled; no claim depends on them). -/

/-- The characters allowed in a URL scheme after the first letter. -/
def isSchemeChar (c : Char) : Bool :=
  c.isAlpha || c.isDigit || c = '+' || c = '-' || c = '.'

/-- Split a character list at the first occurrence of `c`, returning the
parts before and after it, or `none` when `c` does not occur. -/
def splitAtChar (c : Char) : List Char → Option (List Char × List Char)
  | [] => none
  | x :: rest =>
      if x = c then some ([], rest)
      else
        match splitAtChar c rest with
        | some (pre, post) => some (x :: pre, post)
        | none => none

/-- A character ending the netloc component (`/`, `?` or `#`). -/
def netlocEnd (c : Char) : Bool := c = '/' || c = '?' || c = '#'

/-- Split at every occurrence of `c`, keeping empty pieces (Python
`str.split(sep)` for a one-character separator). -/
def splitOnChar (c : Char) : List Char → List (List Char)
  | [] => [[]]
  | x :: rest =>
      if x = c then [] :: splitOnChar c rest
      else consHead x (splitOnChar c rest)

/-- Python `path.split("/")`. -/
def splitSlash (s : String) : List String :=
  (splitOnChar '/' s.data).map String.mk

/-- Python `"/".join(xs)`. -/
def joinSlash (xs : List String) : String :=
  String.mk (List.intercalate ['/'] (xs.map String.data))

/-- Python `s.startswith("/")` (`s[:1] == '/'`). -/
def startsWithSlash (s : String) : Bool :=
  match s.data with
  | '/' :: _ => true
  | _ => false

/-- Python `s.startswith("//")` (`s[:2] == '//'`). -/
def startsWithTwoSlashes (s : String) : Bool :=
  match s.data with
  | '/' :: '/' :: _ => true
  | _ => false

/-- The components returned by `urllib.parse.urlsplit`. -/
structure UrlParts where
  scheme : String
  netloc : String
  path : String
  query : String
  fragment : String
deriving DecidableEq

/-- `urllib.parse.urlsplit(url, scheme=defaultScheme)`: take a scheme prefix
when the part before the first `:` is a letter followed by scheme
characters (lower-casing it), a `//…` netloc up to the first `/`, `?` or
`#`, then split off the fragment at the first `#` and the query at the
first `?`. -/
def pyUrlsplit (url : String) (defaultScheme : String) : UrlParts :=
  let l := url.data
  let sr : List Char × List Char :=
    match splitAtChar ':' l with
    | some (pre, post) =>
        match pre with
        | [] => (defaultScheme.data, l)
        | c0 :: _ =>
            if c0.isAlpha && pre.all isSchemeChar then (pre.map Char.toLower, post)
            else (defaultScheme.data, l)
    | none => (defaultScheme.data, l)
  let scheme := sr.1
  let rest := sr.2
  let nr : List Char × List Char :=
    match rest with
    | '/' :: '/' :: r => (r.takeWhile (fun c => !netlocEnd c), r.dropWhile (fun c => !netlocEnd c))
    | _ => ([], rest)
  let fr : List Char × List Char :=
    match splitAtChar '#' nr.2 with
    | some (pre, post) => (pre, post)
    | none => (nr.2, [])
  let pq : List Char × List Char :=
    match splitAtChar '?' fr.1 with
    | some (pre, post) => (pre, post)
    | none => (fr.1, [])
  ⟨String.mk scheme, String.mk nr.1, String.mk pq.1, String.mk pq.2, String.mk fr.2⟩

/-- `urllib.parse.urlunsplit`. -/
def pyUrlunsplit (p : UrlParts) : String :=
  let url0 := p.path
  let url1 :=
    if p.netloc ≠ "" ∨ (url0 ≠ "" ∧ startsWithTwoSlashes url0) then
      "//" ++ p.netloc ++ (if url0 ≠ "" ∧ ¬ startsWithSlash url0 then "/" ++ url0 else url0)
    else url0
  let url2 := if p.scheme ≠ "" then p.scheme ++ ":" ++ url1 else url1
  let url3 := if p.query ≠ "" then url2 ++ "?" ++ p.query else url2
  if p.fragment ≠ "" then url3 ++ "#" ++ p.fragment else url3

/-- `urllib.parse.uses_relative`. -/
def usesRelative : List String :=
  ["", "ftp", "http", "gopher", "nntp", "imap", "wais", "file", "https",
   "shttp", "mms", "prospero", "rtsp", "rtspu", "sftp", "svn", "svn+ssh",
   "ws", "wss"]

/-- `urllib.parse.uses_netloc`. -/
def usesNetloc : List String :=
  ["", "ftp", "http", "gopher", "nntp", "telnet", "imap", "wais", "file",
   "mms", "https", "shttp", "snews", "prospero", "rtsp", "rtspu", "rsync",
   "svn", "svn+ssh", "sftp", "nfs", "git", "git+ssh", "ws", "wss"]

/-- `segments[1:-1] = filter(None, segments[1:-1])` in `urljoin`: drop empty
segments, keeping the first and last elements. -/
def filterMiddle (segs : List String) : List String :=
  match segs with
  | [] => []
  | [a] => [a]
  | a :: rest =>
      match rest.getLast? with
      | none => [a]
      | some last => a :: ((rest.dropLast.filter (fun s => s ≠ "")) ++ [last])

/-- The dot-segment resolution loop of `urljoin`: `..` pops the last
resolved segment (silently on empty), `.` is dropped, and a trailing `.` or
`..` re-appends an empty segment. -/
def resolveDots (segments : List String) : List String :=
  let resolved := segments.foldl (fun acc seg =>
    if seg = ".." then acc.dropLast
    else if seg = "." then acc
    else acc ++ [seg]) []
  if segments.getLast? = some ".." ∨ segments.getLast? = some "." then
    resolved ++ [""]
  else resolved

/-- `urllib.parse.urljoin(base, url)` (CPython's algorithm, without the
`params` component): standard relative-URL resolution — absolute references
are kept, protocol-relative references take the base scheme, empty paths
keep the base path and query, absolute paths replace it, and relative paths
are merged against the base directory with `.`/`..` resolution. -/
def pyUrljoin (base url : String) : String :=
  if base = "" then url
  else if url = "" then base
  else
    let b := pyUrlsplit base ""
    let r := pyUrlsplit url b.scheme
    if r.scheme ≠ b.scheme ∨ r.scheme ∉ usesRelative then url
    else if r.scheme ∈ usesNetloc ∧ r.netloc ≠ "" then pyUrlunsplit r
    else
      let netloc := if r.scheme ∈ usesNetloc then b.netloc else r.netloc
      if r.path = "" then
        pyUrlunsplit ⟨r.scheme, netloc, b.path,
                      if r.query ≠ "" then r.query else b.query, r.fragment⟩
      else
        let baseParts0 := splitSlash b.path
        let baseParts :=
          if baseParts0.getLast? ≠ some "" then baseParts0.dropLast else baseParts0
        let segments :=
          if startsWithSlash r.path then splitSlash r.path
          else filterMiddle (baseParts ++ splitSlash r.path)
        let joined := joinSlash (resolveDots segments)
        pyUrlunsplit ⟨r.scheme, netloc, if joined = "" then "/" else joined,
                      r.query, r.fragment⟩

/-! ## Link validity and extraction (src/crawler.py 175-217) -/

/-- The suffixes excluded by `_is_valid_url` (src/crawler.py line 214). -/
def validitySuffixes : List String :=
  [".pdf", ".jpg", ".jpeg", ".png", ".gif", ".css", ".js"]

/-- Python `url.endswith(tuple)`: some listed suffix is a (case-sensitive)
suffix of the full URL string. -/
def endsWithAny (url : String) (suffixes : List String) : Bool :=
  suffixes.any (fun suf => suf.data.isSuffixOf url.data)

/-- `TextCrawler._is_valid_url` (src/crawler.py 199-217): keep a URL iff its
parsed scheme is `http` or `https`, its parsed netloc is non-empty, and the
full URL string does not end with one of the excluded suffixes.  (The
`except: return False` branch guards `urlparse` raising, which the model's
total `pyUrlsplit` never does.) -/
def is_valid_url (url : String) : Bool :=
  let parsed := pyUrlsplit url ""
  (parsed.scheme == "http" || parsed.scheme == "https") &&
    parsed.netloc != "" &&
    !(endsWithAny url validitySuffixes)

/-- `TextCrawler._extract_links` (src/crawler.py 175-197): for each anchor
href in document order, resolve it against the base URL with `urljoin` and
append it to the result when `_is_valid_url` accepts it. -/
def extract_links (base_url : String) (html : HDoc) : List String :=
  (anchorHrefs html).foldl (fun links href =>
    let absolute_url := pyUrljoin base_url href
    if is_valid_url absolute_url then links ++ [absolute_url] else links) []

/-! ## Page fetch (`TextCrawler._fetch_page`, src/crawler.py 107-149) -/

/-- An HTTP response as exposed by the requests session: status code, the
response body (identified with its parse tree, see the HTML model note) and
the byte length of the raw body. -/
structure HttpResponse where
  status : Nat
  body : HDoc
  contentLength : Nat
deriving DecidableEq

/-- The network oracle for one run: what `self.session.get(url)` produces
for each URL (`none` models a raised `RequestException`: connection failure
or timeout). -/
abbrev Net := String → Option HttpResponse

/-- The dictionary `_fetch_page` returns for a successfully fetched page
(the spec's `PageResult`).  `html` holds `response.text`, identified with
its parse tree. -/
structure PageData where
  url : String
  title : String
  description : String
  text : String
  html : HDoc
  status_code : Nat
  content_length : Nat
deriving DecidableEq

/-- `TextCrawler._fetch_page`: GET the URL; `raise_for_status()` turns a
4xx/5xx status into a failure (caught and returned as `none`, like a
network error); otherwise parse the body, extract the cleaned text (which
decomposes script/style elements in the soup before the title and
meta-description lookups, mirroring the in-place mutation), and build the
page record with `url` set to the requested URL. -/
def fetch_page (net : Net) (url : String) : Option PageData :=
  match net url with
  | none => none
  | some resp =>
      if 400 ≤ resp.status ∧ resp.status < 600 then none
      else
        let soup := stripScriptStyle resp.body
        let text_content := String.mk (cleanText (getText soup).data)
        let title_text :=
          match findElem "title" soup with
          | some (HTree.elem _ _ children _) => String.mk (pyStrip (getText children).data)
          | _ => ""
        let description :=
          match findMetaDescription soup with
          | some attrs => (getAttr "content" attrs).getD ""
          | none => ""
        some ⟨url, title_text, description, text_content, resp.body,
              resp.status, resp.contentLength⟩

/-! ## The crawl loop (`TextCrawler.crawl`, src/crawler.py 53-105) -/

/-- The mutable state of a `TextCrawler` instance (src/crawler.py 39-41),
plus three ghost trace fields not present in the Python object:
`fetchLog` records each `_fetch_page` call, `errorLog` each
`logger.error` emitted for a failed fetch, and `extractLog` each page whose
links were extracted.  `delay` (only fed to `time.sleep`) and
`use_database` (False on every run path exercised by the claims) are
omitted; `max_pages` is a `Nat`, encoding the specification's precondition
`maxPages ≥ 0`. -/
structure CrawlerState where
  max_pages : Nat
  visited_urls : List String
  crawled_data : List PageData
  page_count : Nat
  fetchLog : List String
  errorLog : List String
  extractLog : List String
deriving DecidableEq

/-- `TextCrawler.__init__`: a fresh crawler. -/
def mkCrawler (max_pages : Nat) : CrawlerState :=
  ⟨max_pages, [], [], 0, [], [], []⟩

/-- Python `set.add` on the visited set, modelled as prepend-if-absent so
that the list's length is the set's cardinality. -/
def addVisited (url : String) (visited : List String) : List String :=
  if url ∈ visited then visited else url :: visited

/-- The link-enqueueing loop (src/crawler.py 91-93): append each new link
to the end of the queue when it is neither visited nor already queued; the
membership test is against the queue as it grows. -/
def enqueueLinks (links : List String) (visited queue : List String) : List String :=
  match links with
  | [] => queue
  | link :: rest =>
      if link ∉ visited ∧ link ∉ queue then enqueueLinks rest visited (queue ++ [link])
      else enqueueLinks rest visited queue

/-- The state after a successful fetch of `url` (src/crawler.py 77-95):
append the page record, bump the page count, mark `url` visited, and log
the fetch; the extraction trace records `url` exactly when the budget check
`page_count < max_pages` (taken after the increment) passes. -/
def successState (s : CrawlerState) (url : String) (pd : PageData) : CrawlerState :=
  { s with crawled_data := s.crawled_data ++ [pd],
           page_count := s.page_count + 1,
           visited_urls := addVisited url s.visited_urls,
           fetchLog := s.fetchLog ++ [url],
           extractLog :=
             if s.page_count + 1 < s.max_pages then s.extractLog ++ [url]
             else s.extractLog }

/-- The queue after a successful fetch of `url` (src/crawler.py 88-93):
when the budget check passes, extract the page's links and enqueue the new
ones — against the visited set *before* `url` is added to it (the
`visited_urls.add(url)` on line 95 runs after the link loop). -/
def successQueue (s : CrawlerState) (url : String) (pd : PageData)
    (rest : List String) : List String :=
  if s.page_count + 1 < s.max_pages then
    enqueueLinks (extract_links url pd.html) s.visited_urls rest
  else rest

/-- The state after a failed fetch of `url` (src/crawler.py 77, 95,
144-149): no page record, no page-count change, `url` marked visited, the
fetch and the `logger.error` emission logged. -/
def failState (s : CrawlerState) (url : String) : CrawlerState :=
  { s with visited_urls := addVisited url s.visited_urls,
           fetchLog := s.fetchLog ++ [url],
           errorLog := s.errorLog ++ [url] }

/-- The `while url_queue and self.page_count < self.max_pages` loop of
`crawl` (src/crawler.py 66-103): pop the front of the queue; skip it when
already visited (no fetch); otherwise fetch it and take the success or
failure transition. -/
def crawlLoop (net : Net) (s : CrawlerState) (queue : List String) : CrawlerState :=
  match queue with
  | [] => s
  | url :: rest =>
      if h : s.page_count < s.max_pages then
        if url ∈ s.visited_urls then crawlLoop net s rest
        else
          match fetch_page net url with
          | some pd => crawlLoop net (successState s url pd) (successQueue s url pd rest)
          | none => crawlLoop net (failState s url) rest
      else s
termination_by (s.max_pages - s.page_count, queue.length)
decreasing_by
  · apply Prod.Lex.right
    simp
  · apply Prod.Lex.left
    simp only [successState]
    omega
  · apply Prod.Lex.right
    simp

/-- `TextCrawler.crawl`: copy the seed list into the queue and run the
loop.  The Python method mutates `self` and returns `self.crawled_data`;
the model returns the post-state, and `crawlResult` projects the returned
value. -/
def crawl (net : Net) (s : CrawlerState) (start_urls : List String) : CrawlerState :=
  crawlLoop net s start_urls

/-- The value `TextCrawler.crawl` returns (src/crawler.py 105). -/
def crawlResult (net : Net) (s : CrawlerState) (start_urls : List String) : List PageData :=
  (crawl net s start_urls).crawled_data

/-- The dictionary `TextCrawler.get_stats` returns (src/crawler.py 268-272;
the optional database stats are disabled). -/
structure Stats where
  pages_crawled : Nat
  urls_visited : Nat
  data_collected : Nat

/-- `TextCrawler.get_stats`. -/
def get_stats (s : CrawlerState) : Stats :=
  ⟨s.page_count, s.visited_urls.length, s.crawled_data.length⟩

/-! ## The API layer's status record (src/api.py)

`crawler_status["errors"]` is the only error list in the repository.
`start_crawl` resets it to `[]` (src/api.py 114-121) and `run_crawler`
appends to it only in its `except` branch (src/api.py 191-198), i.e. only
when `crawler.crawl` itself raises.  `crawl` catches every per-URL failure
(`_fetch_page` returns `None` instead of raising, and the loop's own
`except` swallows anything else), so on the modelled runs `crawl` returns
normally and the success path (src/api.py 177-182) leaves `errors`
untouched at `[]` while setting `pages_crawled` to the result length. -/

/-- The fields of `crawler_status` the claims mention. -/
structure ApiStatus where
  is_running : Bool
  pages_crawled : Nat
  errors : List String
deriving DecidableEq

/-- `start_crawl` followed by `run_crawler` running to completion
(src/api.py 102-132, 166-198): fresh crawler, status reset, crawl, then the
normal-return status update. -/
def apiStartAndRun (net : Net) (urls : List String) (max_pages : Nat) :
    ApiStatus × List PageData :=
  let c := mkCrawler max_pages
  let results := crawlResult net c urls
  (⟨false, results.length, []⟩, results)

/-! ## Spec-side reference definitions (for the refinement claims) -/

/-- Transcription of spec step 4.1.e: "for each candidate link not already
in VisitedSet and not already present in Frontier, append it to the end of
Frontier (preserving discovery order)" — a left fold over the candidates. -/
def specEnqueue (links visited queue : List String) : List String :=
  links.foldl (fun q link => if link ∉ visited ∧ link ∉ q then q ++ [link] else q) queue

/-- Strip every piece and discard the empty ones — the common tail of the
two split pipelines ("trim each phrase, discard empty phrases"). -/
def stripFilter (ps : List (List Char)) : List (List Char) :=
  (ps.map pyStrip).filter (fun p => !p.isEmpty)

/-! ## Concrete fixtures for the testable properties -/

/-- A page body with visible text and no anchors. -/
def plainDoc (t : String) : HDoc :=
  HTree.elem "html" [] (HTree.elem "body" [] (HTree.text t HTree.nil) HTree.nil) HTree.nil

/-- A page body containing a single anchor. -/
def linkDoc (href : String) : HDoc :=
  HTree.elem "html" []
    (HTree.elem "body" []
      (HTree.elem "a" [("href", href)] (HTree.text "link" HTree.nil) HTree.nil) HTree.nil)
    HTree.nil

/-- Oracle: `A` is a 200 page with no links; everything else is a network
error. -/
def netA : Net := fun u => if u = "A" then some ⟨200, plainDoc "hi", 2⟩ else none

/-- Oracle: `A` is a 200 page linking to `http://b.test/x`, itself a 200
page with no links. -/
def netAB : Net := fun u =>
  if u = "A" then some ⟨200, linkDoc "http://b.test/x", 4⟩
  else if u = "http://b.test/x" then some ⟨200, plainDoc "b", 1⟩
  else none

/-- Oracle: fetching `A` yields HTTP 404; `B` is a 200 page with no
links. -/
def net404 : Net := fun u =>
  if u = "A" then some ⟨404, plainDoc "not found", 9⟩
  else if u = "B" then some ⟨200, plainDoc "ok", 2⟩
  else none

/-- The parse of `<html><script>x</script><body>  Hello   World  </body></html>`,
the spec's text-extraction example. -/
def exampleDoc : HDoc :=
  HTree.elem "html" []
    (HTree.elem "script" [] (HTree.text "x" HTree.nil)
      (HTree.elem "body" [] (HTree.text "  Hello   World  " HTree.nil) HTree.nil))
    HTree.nil

/-- The page record a successful fetch of `A` under `netA` produces. -/
def pdA : PageData := ⟨"A", "", "", "hi", plainDoc "hi", 200, 2⟩

/-- The page record a successful fetch of `A` under `netAB` produces. -/
def pdAB : PageData := ⟨"A", "", "", "link", linkDoc "http://b.test/x", 200, 4⟩

/-- The page record a successful fetch of `http://b.test/x` under `netAB`
produces. -/
def pdB : PageData := ⟨"http://b.test/x", "", "", "b", plainDoc "b", 200, 1⟩

/-- The page record a successful fetch of `B` under `net404` produces. -/
def pdOk : PageData := ⟨"B", "", "", "ok", plainDoc "ok", 200, 2⟩

/-! ## Unfolding lemmas for the crawl loop -/

theorem crawlLoop_nil (net : Net) (s : CrawlerState) : crawlLoop net s [] = s := by
  unfold crawlLoop
  rfl

theorem crawlLoop_budget (net : Net) (s : CrawlerState) (url : String)
    (rest : List String) (h : ¬ s.page_count < s.max_pages) :
    crawlLoop net s (url :: rest) = s := by
  unfold crawlLoop
  simp [h]

theorem crawlLoop_skip (net : Net) (s : CrawlerState) (url : String)
    (rest : List String) (h1 : s.page_count < s.max_pages)
    (h2 : url ∈ s.visited_urls) :
    crawlLoop net s (url :: rest) = crawlLoop net s rest := by
  conv_lhs => unfold crawlLoop
  simp [h1, h2]

theorem crawlLoop_succ (net : Net) (s : CrawlerState) (url : String)
    (rest : List String) (pd : PageData) (h1 : s.page_count < s.max_pages)
    (h2 : url ∉ s.visited_urls) (h3 : fetch_page net url = some pd) :
    crawlLoop net s (url :: rest) =
      crawlLoop net (successState s url pd) (successQueue s url pd rest) := by
  conv_lhs => unfold crawlLoop
  simp [h1, h2, h3]

theorem crawlLoop_fail (net : Net) (s : CrawlerState) (url : String)
    (rest : List String) (h1 : s.page_count < s.max_pages)
    (h2 : url ∉ s.visited_urls) (h3 : fetch_page net url = none) :
    crawlLoop net s (url :: rest) = crawlLoop net (failState s url) rest := by
  conv_lhs => unfold crawlLoop
  simp [h1, h2, h3]

/-! ## Small facts about the building blocks -/

theorem fetch_page_url (net : Net) (url : String) (pd : PageData)
    (h : fetch_page net url = some pd) : pd.url = url := by
  unfold fetch_page at h
  cases hn : net url with
  | none => rw [hn] at h; simp at h
  | some resp =>
      rw [hn] at h
      dsimp only at h
      by_cases hs : 400 ≤ resp.status ∧ resp.status < 600
      · rw [if_pos hs] at h
        simp at h
      · rw [if_neg hs] at h
        injection h with h'
        rw [← h']

theorem mem_addVisited_self (u : String) (v : List String) :
    u ∈ addVisited u v := by
  unfold addVisited
  split
  · assumption
  · exact List.mem_cons_self u v

theorem mem_addVisited_of_mem (u w : String) (v : List String) (h : w ∈ v) :
    w ∈ addVisited u v := by
  unfold addVisited
  split
  · exact h
  · exact List.mem_cons_of_mem u h

theorem length_le_addVisited (u : String) (v : List String) :
    v.length ≤ (addVisited u v).length := by
  unfold addVisited
  split
  · exact le_refl _
  · simp

theorem length_addVisited_of_not_mem (u : String) (v : List String)
    (h : u ∉ v) : (addVisited u v).length = v.length + 1 := by
  unfold addVisited
  rw [if_neg h]
  rfl

/-! ## Loop invariants -/

theorem crawlLoop_page_count_le (net : Net) (s : CrawlerState) (queue : List String) :
    (crawlLoop net s queue).page_count ≤ max s.page_count s.max_pages := by
  induction s, queue using crawlLoop.induct net with
  | case1 s => rw [crawlLoop_nil]; exact le_max_left _ _
  | case2 s url rest h1 h2 ih =>
      rw [crawlLoop_skip net s url rest h1 h2]; exact ih
  | case3 s url rest h1 h2 pd h3 ih =>
      rw [crawlLoop_succ net s url rest pd h1 h2 h3]
      refine le_trans ih ?_
      have hpc : (successState s url pd).page_count = s.page_count + 1 := rfl
      have hmp : (successState s url pd).max_pages = s.max_pages := rfl
      rw [hpc, hmp]
      exact max_le (le_trans h1 (le_max_right _ _)) (le_max_right _ _)
  | case4 s url rest h1 h2 h3 ih =>
      rw [crawlLoop_fail net s url rest h1 h2 h3]; exact ih
  | case5 s url rest h1 =>
      rw [crawlLoop_budget net s url rest h1]; exact le_max_left _ _

theorem crawlLoop_count_le_visited (net : Net) (s : CrawlerState) (queue : List String)
    (h : s.page_count ≤ s.visited_urls.length) :
    (crawlLoop net s queue).page_count ≤ (crawlLoop net s queue).visited_urls.length := by
  induction s, queue using crawlLoop.induct net with
  | case1 s => rw [crawlLoop_nil]; exact h
  | case2 s url rest h1 h2 ih =>
      rw [crawlLoop_skip net s url rest h1 h2]; exact ih h
  | case3 s url rest h1 h2 pd h3 ih =>
      rw [crawlLoop_succ net s url rest pd h1 h2 h3]
      apply ih
      have hv : (successState s url pd).visited_urls = addVisited url s.visited_urls := rfl
      have hpc : (successState s url pd).page_count = s.page_count + 1 := rfl
      rw [hv, hpc, length_addVisited_of_not_mem url s.visited_urls h2]
      omega
  | case4 s url rest h1 h2 h3 ih =>
      rw [crawlLoop_fail net s url rest h1 h2 h3]
      apply ih
      exact le_trans h (length_le_addVisited url s.visited_urls)
  | case5 s url rest h1 =>
      rw [crawlLoop_budget net s url rest h1]; exact h

theorem crawlLoop_data_inv (net : Net) (s : CrawlerState) (queue : List String)
    (h1 : (s.crawled_data.map PageData.url).Nodup)
    (h2 : ∀ p ∈ s.crawled_data, p.url ∈ s.visited_urls) :
    ((crawlLoop net s queue).crawled_data.map PageData.url).Nodup ∧
      ∀ p ∈ (crawlLoop net s queue).crawled_data,
        p.url ∈ (crawlLoop net s queue).visited_urls := by
  induction s, queue using crawlLoop.induct net with
  | case1 s => rw [crawlLoop_nil]; exact ⟨h1, h2⟩
  | case2 s url rest hlt hv ih =>
      rw [crawlLoop_skip net s url rest hlt hv]; exact ih h1 h2
  | case3 s url rest hlt hnv pd hf ih =>
      rw [crawlLoop_succ net s url rest pd hlt hnv hf]
      have hurl : pd.url = url := fetch_page_url net url pd hf
      apply ih
      · have hd : (successState s url pd).crawled_data = s.crawled_data ++ [pd] := rfl
        rw [hd, List.map_append, List.nodup_append]
        refine ⟨h1, by simp, ?_⟩
        intro a ha hb
        simp only [List.map_cons, List.map_nil, List.mem_singleton] at hb
        rcases List.mem_map.mp ha with ⟨p, hp, hpa⟩
        have : a ∈ s.visited_urls := hpa ▸ h2 p hp
        rw [hb, hurl] at this
        exact hnv this
      · intro p hp
        have hd : (successState s url pd).crawled_data = s.crawled_data ++ [pd] := rfl
        rw [hd] at hp
        rcases List.mem_append.mp hp with hp | hp
        · exact mem_addVisited_of_mem url p.url s.visited_urls (h2 p hp)
        · rw [List.mem_singleton.mp hp, hurl]
          exact mem_addVisited_self url s.visited_urls
  | case4 s url rest hlt hnv hf ih =>
      rw [crawlLoop_fail net s url rest hlt hnv hf]
      apply ih
      · exact h1
      · intro p hp
        exact mem_addVisited_of_mem url p.url s.visited_urls (h2 p hp)
  | case5 s url rest hlt =>
      rw [crawlLoop_budget net s url rest hlt]; exact ⟨h1, h2⟩

theorem crawlLoop_fetchLog_inv (net : Net) (s : CrawlerState) (queue : List String)
    (h1 : s.fetchLog.Nodup) (h2 : ∀ u ∈ s.fetchLog, u ∈ s.visited_urls) :
    (crawlLoop net s queue).fetchLog.Nodup ∧
      ∀ u ∈ (crawlLoop net s queue).fetchLog,
        u ∈ (crawlLoop net s queue).visited_urls := by
  induction s, queue using crawlLoop.induct net with
  | case1 s => rw [crawlLoop_nil]; exact ⟨h1, h2⟩
  | case2 s url rest hlt hv ih =>
      rw [crawlLoop_skip net s url rest hlt hv]; exact ih h1 h2
  | case3 s url rest hlt hnv pd hf ih =>
      rw [crawlLoop_succ net s url rest pd hlt hnv hf]
      apply ih
      · have hd : (successState s url pd).fetchLog = s.fetchLog ++ [url] := rfl
        rw [hd, List.nodup_append]
        refine ⟨h1, by simp, ?_⟩
        intro a ha hb
        rw [List.mem_singleton.mp hb] at ha
        exact hnv (h2 url ha)
      · intro u hu
        have hd : (successState s url pd).fetchLog = s.fetchLog ++ [url] := rfl
        rw [hd] at hu
        rcases List.mem_append.mp hu with hu | hu
        · exact mem_addVisited_of_mem url u s.visited_urls (h2 u hu)
        · rw [List.mem_singleton.mp hu]
          exact mem_addVisited_self url s.visited_urls
  | case4 s url rest hlt hnv hf ih =>
      rw [crawlLoop_fail net s url rest hlt hnv hf]
      apply ih
      · have hd : (failState s url).fetchLog = s.fetchLog ++ [url] := rfl
        rw [hd, List.nodup_append]
        refine ⟨h1, by simp, ?_⟩
        intro a ha hb
        rw [List.mem_singleton.mp hb] at ha
        exact hnv (h2 url ha)
      · intro u hu
        have hd : (failState s url).fetchLog = s.fetchLog ++ [url] := rfl
        rw [hd] at hu
        rcases List.mem_append.mp hu with hu | hu
        · exact mem_addVisited_of_mem url u s.visited_urls (h2 u hu)
        · rw [List.mem_singleton.mp hu]
          exact mem_addVisited_self url s.visited_urls
  | case5 s url rest hlt =>
      rw [crawlLoop_budget net s url rest hlt]; exact ⟨h1, h2⟩

theorem crawlLoop_fetchLog_new (net : Net) (s : CrawlerState) (queue : List String) :
    ∃ t, (crawlLoop net s queue).fetchLog = s.fetchLog ++ t ∧
      ∀ u ∈ t, u ∉ s.visited_urls := by
  induction s, queue using crawlLoop.induct net with
  | case1 s => exact ⟨[], by rw [crawlLoop_nil]; simp, by simp⟩
  | case2 s url rest hlt hv ih =>
      rw [crawlLoop_skip net s url rest hlt hv]; exact ih
  | case3 s url rest hlt hnv pd hf ih =>
      obtain ⟨t, ht, hm⟩ := ih
      refine ⟨url :: t, ?_, ?_⟩
      · rw [crawlLoop_succ net s url rest pd hlt hnv hf, ht]
        have hd : (successState s url pd).fetchLog = s.fetchLog ++ [url] := rfl
        rw [hd, List.append_assoc]
        rfl
      · intro u hu
        rcases List.mem_cons.mp hu with hu | hu
        · rw [hu]; exact hnv
        · intro hv
          exact hm u hu (mem_addVisited_of_mem url u s.visited_urls hv)
  | case4 s url rest hlt hnv hf ih =>
      obtain ⟨t, ht, hm⟩ := ih
      refine ⟨url :: t, ?_, ?_⟩
      · rw [crawlLoop_fail net s url rest hlt hnv hf, ht]
        have hd : (failState s url).fetchLog = s.fetchLog ++ [url] := rfl
        rw [hd, List.append_assoc]
        rfl
      · intro u hu
        rcases List.mem_cons.mp hu with hu | hu
        · rw [hu]; exact hnv
        · intro hv
          exact hm u hu (mem_addVisited_of_mem url u s.visited_urls hv)
  | case5 s url rest hlt =>
      exact ⟨[], by rw [crawlLoop_budget net s url rest hlt]; simp, by simp⟩

/-! ## Enqueueing and link-extraction lemmas -/

theorem enqueueLinks_eq_spec (links : List String) :
    ∀ visited queue, enqueueLinks links visited queue = specEnqueue links visited queue := by
  induction links with
  | nil => intro v q; rfl
  | cons l ls ih =>
      intro v q
      show (if l ∉ v ∧ l ∉ q then enqueueLinks ls v (q ++ [l]) else enqueueLinks ls v q) =
        (l :: ls).foldl (fun q2 link => if link ∉ v ∧ link ∉ q2 then q2 ++ [link] else q2) q
      rw [List.foldl_cons]
      by_cases h : l ∉ v ∧ l ∉ q
      · rw [if_pos h, if_pos h]; exact ih v (q ++ [l])
      · rw [if_neg h, if_neg h]; exact ih v q

theorem enqueueLinks_extends (links : List String) :
    ∀ visited queue, ∃ t, enqueueLinks links visited queue = queue ++ t := by
  induction links with
  | nil => intro v q; exact ⟨[], by simp [enqueueLinks]⟩
  | cons l ls ih =>
      intro v q
      show (∃ t, (if l ∉ v ∧ l ∉ q then enqueueLinks ls v (q ++ [l]) else enqueueLinks ls v q) = q ++ t)
      by_cases h : l ∉ v ∧ l ∉ q
      · obtain ⟨t, ht⟩ := ih v (q ++ [l])
        exact ⟨l :: t, by rw [if_pos h, ht, List.append_assoc]; rfl⟩
      · obtain ⟨t, ht⟩ := ih v q
        exact ⟨t, by rw [if_neg h, ht]⟩

theorem extract_links_foldl (base : String) (hrefs : List String) :
    ∀ acc : List String,
      hrefs.foldl (fun links href =>
        let absolute_url := pyUrljoin base href
        if is_valid_url absolute_url then links ++ [absolute_url] else links) acc =
      acc ++ (hrefs.map (pyUrljoin base)).filter is_valid_url := by
  induction hrefs with
  | nil => intro acc; simp
  | cons h hs ih =>
      intro acc
      rw [List.foldl_cons, List.map_cons, List.filter_cons]
      dsimp only
      by_cases hv : is_valid_url (pyUrljoin base h)
      · rw [if_pos hv, ih, if_pos hv, List.append_assoc]
        rfl
      · rw [if_neg hv, ih]
        have : (is_valid_url (pyUrljoin base h) = true) = False := by
          simp [hv]
        rw [if_neg (by simpa using hv)]

theorem extract_links_eq (base : String) (html : HDoc) :
    extract_links base html =
      ((anchorHrefs html).map (pyUrljoin base)).filter is_valid_url := by
  unfold extract_links
  rw [extract_links_foldl]
  simp

theorem mem_extract_links_valid (base : String) (html : HDoc) (link : String)
    (h : link ∈ extract_links base html) : is_valid_url link = true := by
  rw [extract_links_eq] at h
  exact (List.mem_filter.mp h).2

/-! ## Concrete run evaluations -/

theorem runA_eval : crawl netA (mkCrawler 2) ["A"] =
    ⟨2, ["A"], [pdA], 1, ["A"], [], ["A"]⟩ := by
  unfold crawl
  rw [crawlLoop_succ netA (mkCrawler 2) "A" [] pdA (by decide) (by decide) (by decide)]
  rw [(by decide : successQueue (mkCrawler 2) "A" pdA [] = []), crawlLoop_nil]
  decide

theorem runAA_eval : crawl netA (mkCrawler 10) ["A", "A"] =
    ⟨10, ["A"], [pdA], 1, ["A"], [], ["A"]⟩ := by
  unfold crawl
  rw [crawlLoop_succ netA (mkCrawler 10) "A" ["A"] pdA (by decide) (by decide) (by decide)]
  rw [(by decide : successQueue (mkCrawler 10) "A" pdA ["A"] = ["A"])]
  rw [crawlLoop_skip netA (successState (mkCrawler 10) "A" pdA) "A" [] (by decide) (by decide)]
  rw [crawlLoop_nil]
  decide

theorem runAB1_eval : crawl netAB (mkCrawler 1) ["A"] =
    ⟨1, ["A"], [pdAB], 1, ["A"], [], []⟩ := by
  unfold crawl
  rw [crawlLoop_succ netAB (mkCrawler 1) "A" [] pdAB (by decide) (by decide) (by decide)]
  rw [(by decide : successQueue (mkCrawler 1) "A" pdAB [] = []), crawlLoop_nil]
  decide

theorem runAB2_eval : crawl netAB (mkCrawler 2) ["A"] =
    ⟨2, ["http://b.test/x", "A"], [pdAB, pdB], 2, ["A", "http://b.test/x"], [], ["A"]⟩ := by
  unfold crawl
  rw [crawlLoop_succ netAB (mkCrawler 2) "A" [] pdAB (by decide) (by decide) (by decide)]
  rw [(by decide : successQueue (mkCrawler 2) "A" pdAB [] = ["http://b.test/x"])]
  rw [crawlLoop_succ netAB (successState (mkCrawler 2) "A" pdAB) "http://b.test/x" [] pdB
      (by decide) (by decide) (by decide)]
  rw [(by decide :
        successQueue (successState (mkCrawler 2) "A" pdAB) "http://b.test/x" pdB [] = []),
      crawlLoop_nil]
  decide

theorem run404_eval : crawl net404 (mkCrawler 10) ["A", "B"] =
    ⟨10, ["B", "A"], [pdOk], 1, ["A", "B"], ["A"], ["B"]⟩ := by
  unfold crawl
  rw [crawlLoop_fail net404 (mkCrawler 10) "A" ["B"] (by decide) (by decide) (by decide)]
  rw [crawlLoop_succ net404 (failState (mkCrawler 10) "A") "B" [] pdOk
      (by decide) (by decide) (by decide)]
  rw [(by decide : successQueue (failState (mkCrawler 10) "A") "B" pdOk [] = []), crawlLoop_nil]
  decide

/-! ## The two split pipelines agree after trimming

The code splits each line at the literal two-space string; the spec says
"runs of two-or-more spaces".  After trimming every piece and discarding
the empty ones the two splits agree on every string: a maximal run of
spaces is consumed two at a time, and the leftovers (empty pieces and a
possible odd leading space on the following piece) are exactly what the
trim-and-discard stage removes. -/

theorem sts_nil : splitTwoSpaces [] = [[]] := rfl

theorem sts_two (rest : List Char) :
    splitTwoSpaces (' ' :: ' ' :: rest) = [] :: splitTwoSpaces rest := rfl

theorem sts_cons (c : Char) (rest : List Char) (h : ¬(c = ' ' ∧ rest.head? = some ' ')) :
    splitTwoSpaces (c :: rest) = consHead c (splitTwoSpaces rest) := by
  rw [splitTwoSpaces.eq_def]
  split
  · simp_all
  · rename_i heq
    exact absurd ⟨by injection heq, by injection heq with h1 h2; rw [h2]; rfl⟩ h
  · rename_i c2 r2 heq
    injection heq with h1 h2
    rw [h1, h2]

theorem ssr_nil : splitSpaceRuns [] = [[]] := by
  unfold splitSpaceRuns
  rfl

theorem ssr_two (rest : List Char) :
    splitSpaceRuns (' ' :: ' ' :: rest) =
      [] :: splitSpaceRuns (rest.dropWhile (fun c => c = ' ')) := by
  rw [splitSpaceRuns.eq_def]
  split
  · simp_all
  · rename_i heq
    injection heq with h1 h2
    injection h2 with h3 h4
    rw [h4]
  · rename_i hne heq
    injection heq with e1 e2
    exact (hne rest e1.symm e2.symm).elim

theorem ssr_cons (c : Char) (rest : List Char) (h : ¬(c = ' ' ∧ rest.head? = some ' ')) :
    splitSpaceRuns (c :: rest) = consHead c (splitSpaceRuns rest) := by
  rw [splitSpaceRuns.eq_def]
  split
  · simp_all
  · rename_i heq
    exact absurd ⟨by injection heq, by injection heq with h1 h2; rw [h2]; rfl⟩ h
  · rename_i c2 r2 heq
    injection heq with h1 h2
    rw [h1, h2]

theorem consHead_ne_nil (c : Char) (X : List (List Char)) : consHead c X ≠ [] := by
  cases X <;> simp [consHead]

theorem consHead_headD (c : Char) (X : List (List Char)) :
    (consHead c X).headD [] = c :: X.headD [] := by
  cases X <;> simp [consHead]

theorem sts_ne_nil (l : List Char) : splitTwoSpaces l ≠ [] := by
  cases l with
  | nil => simp [sts_nil]
  | cons c rest =>
      by_cases hc : c = ' ' ∧ rest.head? = some ' '
      · obtain ⟨hc1, hc2⟩ := hc
        cases rest with
        | nil => simp at hc2
        | cons c2 r =>
            have hc2' : c2 = ' ' := by simpa using hc2
            subst hc1
            subst hc2'
            rw [sts_two]
            simp
      · rw [sts_cons c rest hc]
        exact consHead_ne_nil c _

theorem ssr_ne_nil (l : List Char) : splitSpaceRuns l ≠ [] := by
  cases l with
  | nil => simp [ssr_nil]
  | cons c rest =>
      by_cases hc : c = ' ' ∧ rest.head? = some ' '
      · obtain ⟨hc1, hc2⟩ := hc
        cases rest with
        | nil => simp at hc2
        | cons c2 r =>
            have hc2' : c2 = ' ' := by simpa using hc2
            subst hc1
            subst hc2'
            rw [ssr_two]
            simp
      · rw [ssr_cons c rest hc]
        exact consHead_ne_nil c _

theorem split_headD_eq (l : List Char) :
    (splitTwoSpaces l).headD [] = (splitSpaceRuns l).headD [] := by
  induction l with
  | nil => rw [sts_nil, ssr_nil]
  | cons c rest ih =>
      by_cases hc : c = ' ' ∧ rest.head? = some ' '
      · obtain ⟨hc1, hc2⟩ := hc
        cases rest with
        | nil => simp at hc2
        | cons c2 r =>
            have hc2' : c2 = ' ' := by simpa using hc2
            subst hc1
            subst hc2'
            rw [sts_two, ssr_two]
            rfl
      · rw [sts_cons c rest hc, ssr_cons c rest hc, consHead_headD, consHead_headD, ih]

theorem pyStrip_cons_space (x : List Char) : pyStrip (' ' :: x) = pyStrip x := by
  unfold pyStrip
  rw [List.dropWhile_cons, if_pos (show pyWhitespace ' ' = true by decide)]

theorem stripFilter_cons (p : List Char) (ps : List (List Char)) :
    stripFilter (p :: ps) =
      if pyStrip p = [] then stripFilter ps else pyStrip p :: stripFilter ps := by
  unfold stripFilter
  rw [List.map_cons, List.filter_cons]
  by_cases h : pyStrip p = []
  · rw [if_pos h, if_neg (by simp [h])]
  · rw [if_neg h, if_pos (by simp [h])]

theorem stripFilter_append (a b : List (List Char)) :
    stripFilter (a ++ b) = stripFilter a ++ stripFilter b := by
  unfold stripFilter
  rw [List.map_append, List.filter_append]

theorem stripFilter_consHead (c : Char) (X Y : List (List Char))
    (hne₁ : X ≠ []) (hne₂ : Y ≠ []) (hhead : X.headD [] = Y.headD [])
    (hsf : stripFilter X = stripFilter Y) :
    stripFilter (consHead c X) = stripFilter (consHead c Y) := by
  cases X with
  | nil => exact absurd rfl hne₁
  | cons x xs =>
      cases Y with
      | nil => exact absurd rfl hne₂
      | cons y ys =>
          simp only [List.headD_cons] at hhead
          subst hhead
          rw [stripFilter_cons, stripFilter_cons] at hsf
          have hxy : stripFilter xs = stripFilter ys := by
            by_cases hx : pyStrip x = []
            · rwa [if_pos hx, if_pos hx] at hsf
            · rw [if_neg hx, if_neg hx] at hsf
              injection hsf
          show stripFilter ((c :: x) :: xs) = stripFilter ((c :: x) :: ys)
          rw [stripFilter_cons, stripFilter_cons, hxy]

theorem stripFilter_consHead_space (Z : List (List Char)) :
    stripFilter (consHead ' ' Z) = stripFilter Z := by
  cases Z with
  | nil => decide
  | cons p ps =>
      show stripFilter ((' ' :: p) :: ps) = stripFilter (p :: ps)
      rw [stripFilter_cons, stripFilter_cons, pyStrip_cons_space]

theorem stripFilter_ssr_dropSpaces (l : List Char) :
    stripFilter (splitSpaceRuns (l.dropWhile (fun c => c = ' '))) =
      stripFilter (splitSpaceRuns l) := by
  cases l with
  | nil => rfl
  | cons c rest =>
      by_cases hc1 : c = ' '
      · subst hc1
        rw [show ((' ' :: rest).dropWhile (fun c => c = ' ')) =
              rest.dropWhile (fun c => c = ' ') from by
            rw [List.dropWhile_cons, if_pos (by decide)]]
        cases rest with
        | nil =>
            rw [show (([] : List Char).dropWhile (fun c => c = ' ')) = [] from rfl, ssr_nil]
            rw [ssr_cons ' ' [] (by simp), ssr_nil]
            decide
        | cons c2 r =>
            by_cases hc2 : c2 = ' '
            · subst hc2
              rw [ssr_two]
              rw [stripFilter_cons, if_pos (by decide)]
              rw [show ((' ' :: r).dropWhile (fun c => c = ' ')) =
                    r.dropWhile (fun c => c = ' ') from by
                  rw [List.dropWhile_cons, if_pos (by decide)]]
            · rw [show ((c2 :: r).dropWhile (fun c => c = ' ')) = c2 :: r from by
                  rw [List.dropWhile_cons, if_neg (by simpa using hc2)]]
              rw [ssr_cons ' ' (c2 :: r) (by simp [hc2])]
              rw [stripFilter_consHead_space]
      · rw [show ((c :: rest).dropWhile (fun c => c = ' ')) = c :: rest from by
            rw [List.dropWhile_cons, if_neg (by simpa using hc1)]]

theorem stripFilter_split_le : ∀ (n : Nat) (l : List Char), l.length ≤ n →
    stripFilter (splitTwoSpaces l) = stripFilter (splitSpaceRuns l) := by
  intro n
  induction n with
  | zero =>
      intro l hl
      have hn : l = [] := List.eq_nil_of_length_eq_zero (Nat.le_zero.mp hl)
      subst hn
      rw [sts_nil, ssr_nil]
  | succ n ih =>
      intro l hl
      cases l with
      | nil => rw [sts_nil, ssr_nil]
      | cons c rest =>
          by_cases hc : c = ' ' ∧ rest.head? = some ' '
          · obtain ⟨hc1, hc2⟩ := hc
            cases rest with
            | nil => simp at hc2
            | cons c2 l₂ =>
                have hc2' : c2 = ' ' := by simpa using hc2
                subst hc1
                subst hc2'
                rw [sts_two, ssr_two]
                rw [stripFilter_cons, if_pos (by decide), stripFilter_cons, if_pos (by decide)]
                rw [stripFilter_ssr_dropSpaces l₂]
                apply ih
                simp only [List.length_cons] at hl
                omega
          · rw [sts_cons c rest hc, ssr_cons c rest hc]
            refine stripFilter_consHead c _ _ (sts_ne_nil rest) (ssr_ne_nil rest)
              (split_headD_eq rest) (ih rest ?_)
            simp only [List.length_cons] at hl
            omega

theorem stripFilter_split (l : List Char) :
    stripFilter (splitTwoSpaces l) = stripFilter (splitSpaceRuns l) :=
  stripFilter_split_le l.length l (le_refl _)

theorem chunks_filter_eq (L : List (List Char)) :
    stripFilter ((L.map splitTwoSpaces).flatten) =
      stripFilter ((L.map splitSpaceRuns).flatten) := by
  induction L with
  | nil => rfl
  | cons x xs ih =>
      rw [List.map_cons, List.map_cons, List.flatten_cons, List.flatten_cons,
        stripFilter_append, stripFilter_append, ih, stripFilter_split x]

theorem cleanText_eq_specCleanText (t : List Char) : cleanText t = specCleanText t := by
  show List.intercalate [' ']
      (stripFilter (((pySplitlines t).map pyStrip).map splitTwoSpaces).flatten) =
    List.intercalate [' ']
      (stripFilter (((pySplitlines t).map pyStrip).map splitSpaceRuns).flatten)
  rw [chunks_filter_eq]

/-! ## The claims -/

/-- C1: for every crawl run started on a fresh crawler (`maxPages ≥ 0` is
encoded by `max_pages : Nat`), after `crawl(seedUrls)` returns,
`pages_crawled` is at most `maxPages` and at most `urls_visited`: the
number of page records never exceeds the page budget nor the size of the
visited set. -/
theorem crawl_stats_bounds (net : Net) (max_pages : Nat) (seeds : List String) :
    (get_stats (crawl net (mkCrawler max_pages) seeds)).pages_crawled ≤ max_pages ∧
      (get_stats (crawl net (mkCrawler max_pages) seeds)).pages_crawled ≤
        (get_stats (crawl net (mkCrawler max_pages) seeds)).urls_visited := by
  constructor
  · have h := crawlLoop_page_count_le net (mkCrawler max_pages) seeds
    simpa [get_stats, crawl, mkCrawler] using h
  · have h := crawlLoop_count_le_visited net (mkCrawler max_pages) seeds (by simp [mkCrawler])
    simpa [get_stats, crawl] using h

/-- C2: for every crawl run on a fresh crawler, the `url` fields of the
returned `PageResult` sequence are pairwise distinct, whatever the seed
list and whatever the fetched pages link to. -/
theorem crawl_result_urls_nodup (net : Net) (max_pages : Nat) (seeds : List String) :
    ((crawlResult net (mkCrawler max_pages) seeds).map PageData.url).Nodup := by
  have h := crawlLoop_data_inv net (mkCrawler max_pages) seeds
    (by simp [mkCrawler]) (by simp [mkCrawler])
  simpa [crawlResult, crawl] using h.1

/-- C3: a URL in the visited set is never fetched again within the run: on
a fresh crawler the fetch trace is duplicate-free, and from any state no
URL already in the visited set is ever fetched during the remaining run; in
particular the seed list `["A", "A"]`, where `A`'s page contains no links,
yields exactly one fetch of `A` and exactly one page record. -/
theorem crawl_no_refetch :
    (∀ (net : Net) (max_pages : Nat) (seeds : List String),
        ((crawl net (mkCrawler max_pages) seeds).fetchLog).Nodup) ∧
    (∀ (net : Net) (s : CrawlerState) (queue : List String) (u : String),
        u ∈ s.visited_urls →
          u ∉ (crawlLoop net s queue).fetchLog.drop s.fetchLog.length) ∧
    (crawl netA (mkCrawler 10) ["A", "A"]).fetchLog = ["A"] ∧
    (crawlResult netA (mkCrawler 10) ["A", "A"]).length = 1 := by
  refine ⟨?_, ?_, ?_, ?_⟩
  · intro net max_pages seeds
    exact (crawlLoop_fetchLog_inv net (mkCrawler max_pages) seeds
      (by simp [mkCrawler]) (by simp [mkCrawler])).1
  · intro net s queue u hu
    obtain ⟨t, ht, hm⟩ := crawlLoop_fetchLog_new net s queue
    rw [ht, List.drop_left]
    intro hmem
    exact hm u hmem hu
  · rw [runAA_eval]
  · unfold crawlResult
    rw [runAA_eval]
    rfl

/-- Witness for C3 at a concrete state: `A` is visited in the starting
state, so the remaining run fetches it no further. -/
theorem crawl_no_refetch_witness :
    "A" ∈ (⟨2, ["A"], [], 1, [], [], []⟩ : CrawlerState).visited_urls ∧
      "A" ∉ (crawlLoop netA (⟨2, ["A"], [], 1, [], [], []⟩ : CrawlerState) ["A"]).fetchLog.drop
          (⟨2, ["A"], [], 1, [], [], []⟩ : CrawlerState).fetchLog.length :=
  ⟨by decide,
   crawl_no_refetch.2.1 netA ⟨2, ["A"], [], 1, [], [], []⟩ ["A"] "A" (by decide)⟩

/-- C4 counterexample: a run in which fetching `A` fails with HTTP 404 (the
failure is logged — ghost-traced in `errorLog`), yet the run ends with the
repository's only error list — `crawler_status["errors"]` of src/api.py —
empty: no error entry for `A` (or anything else) is recorded in any
run-owned error list, because crawler.py only logs fetch failures and
api.py appends to `errors` solely when `crawl` itself raises. -/
theorem fetch_error_list_empty_cex :
    (crawl net404 (mkCrawler 10) ["A", "B"]).errorLog = ["A"] ∧
      (apiStartAndRun net404 ["A", "B"] 10).1.errors = [] := by
  constructor
  · rw [run404_eval]
  · rfl

/-- C4 (amended): when fetching a URL fails (network error or 4xx/5xx
status), the engine logs the error for that URL (ghost-traced in
`errorLog`), adds the URL to the visited set, does not increment
`page_count`, leaves the collected results unchanged, and continues the
loop with the next frontier entry — no fetch failure terminates the run.
The error is only logged; it is not recorded in any run-owned error list
(see the counterexample). -/
theorem fetch_failure_nonfatal (net : Net) (s : CrawlerState) (url : String)
    (rest : List String) (h1 : s.page_count < s.max_pages)
    (h2 : url ∉ s.visited_urls) (h3 : fetch_page net url = none) :
    crawlLoop net s (url :: rest) = crawlLoop net (failState s url) rest ∧
      (failState s url).errorLog = s.errorLog ++ [url] ∧
      url ∈ (failState s url).visited_urls ∧
      (failState s url).page_count = s.page_count ∧
      (failState s url).crawled_data = s.crawled_data :=
  ⟨crawlLoop_fail net s url rest h1 h2 h3, rfl,
   mem_addVisited_self url s.visited_urls, rfl, rfl⟩

/-- Witness for C4 (amended) at the 404 oracle. -/
theorem fetch_failure_nonfatal_witness :
    ((mkCrawler 10).page_count < (mkCrawler 10).max_pages ∧
        "A" ∉ (mkCrawler 10).visited_urls ∧ fetch_page net404 "A" = none) ∧
      (crawlLoop net404 (mkCrawler 10) ["A", "B"] =
          crawlLoop net404 (failState (mkCrawler 10) "A") ["B"] ∧
        (failState (mkCrawler 10) "A").errorLog = (mkCrawler 10).errorLog ++ ["A"] ∧
        "A" ∈ (failState (mkCrawler 10) "A").visited_urls ∧
        (failState (mkCrawler 10) "A").page_count = (mkCrawler 10).page_count ∧
        (failState (mkCrawler 10) "A").crawled_data = (mkCrawler 10).crawled_data) :=
  ⟨⟨by decide, by decide, by decide⟩,
   fetch_failure_nonfatal net404 (mkCrawler 10) "A" ["B"] (by decide) (by decide) (by decide)⟩

/-- C5: after each successful fetch, the enqueueing loop is the spec's
fold — each candidate is appended to the end of the frontier exactly when
it is neither visited nor already queued, in discovery order (and the
frontier only grows at its end) — and link extraction happens only while
the budget check passes: with `maxPages = 1` the single fetched page's
links are never extracted (its link is never fetched), while with
`maxPages = 2` the first page's links are extracted and followed and the
second (budget-reaching) page's links are not. -/
theorem links_enqueued_new_in_order :
    (∀ links visited queue, enqueueLinks links visited queue = specEnqueue links visited queue) ∧
    (∀ links visited queue, ∃ t, enqueueLinks links visited queue = queue ++ t) ∧
    (crawl netAB (mkCrawler 1) ["A"]).extractLog = [] ∧
    (crawl netAB (mkCrawler 1) ["A"]).fetchLog = ["A"] ∧
    (crawl netAB (mkCrawler 2) ["A"]).extractLog = ["A"] ∧
    (crawl netAB (mkCrawler 2) ["A"]).fetchLog = ["A", "http://b.test/x"] := by
  refine ⟨fun links => enqueueLinks_eq_spec links,
    fun links => enqueueLinks_extends links, ?_, ?_, ?_, ?_⟩
  · rw [runAB1_eval]
  · rw [runAB1_eval]
  · rw [runAB2_eval]
  · rw [runAB2_eval]

/-- C6: the validity filter keeps a resolved URL iff its parsed scheme is
exactly `http` or `https`, its parsed host (netloc) is non-empty, and the
full URL string does not end with one of `.pdf`, `.jpg`, `.jpeg`, `.png`,
`.gif`, `.css`, `.js` (case-sensitive suffix match on the whole string);
every link returned by extraction passes the filter, and a URL ending in
`.png` is rejected and therefore never returned for enqueueing. -/
theorem valid_url_filter_spec :
    (∀ url : String,
        is_valid_url url = true ↔
          ((pyUrlsplit url "").scheme = "http" ∨ (pyUrlsplit url "").scheme = "https") ∧
            (pyUrlsplit url "").netloc ≠ "" ∧
            endsWithAny url validitySuffixes = false) ∧
    (∀ (base : String) (html : HDoc) (link : String),
        link ∈ extract_links base html → is_valid_url link = true) ∧
    is_valid_url "http://x.test/logo.png" = false ∧
    (∀ (base : String) (html : HDoc), "http://x.test/logo.png" ∉ extract_links base html) := by
  refine ⟨?_, mem_extract_links_valid, by decide, ?_⟩
  · intro url
    unfold is_valid_url
    constructor
    · intro h
      simp only [Bool.and_eq_true, Bool.or_eq_true, beq_iff_eq, bne_iff_ne,
        Bool.not_eq_true'] at h
      exact ⟨h.1.1, h.1.2, h.2⟩
    · intro h
      simp only [Bool.and_eq_true, Bool.or_eq_true, beq_iff_eq, bne_iff_ne,
        Bool.not_eq_true']
      exact ⟨⟨h.1, h.2.1⟩, h.2.2⟩
  · intro base html hmem
    have hval := mem_extract_links_valid base html "http://x.test/logo.png" hmem
    exact absurd hval (by decide)

/-- Witness for C6: the resolved link `http://x.test/about` is extracted
and indeed passes the filter. -/
theorem valid_url_filter_spec_witness :
    "http://x.test/about" ∈ extract_links "http://x.test/home" (linkDoc "/about") ∧
      is_valid_url "http://x.test/about" = true :=
  ⟨by decide,
   valid_url_filter_spec.2.1 "http://x.test/home" (linkDoc "/about") "http://x.test/about"
     (by decide)⟩

/-- C8: link extraction is exactly "resolve every anchor href against the
base URL with standard relative-URL resolution, in document order, then
filter"; in particular the relative href `/about` on a page fetched from
`http://x.test/home` resolves to `http://x.test/about`. -/
theorem extract_links_resolves_hrefs :
    (∀ (base : String) (html : HDoc),
        extract_links base html =
          ((anchorHrefs html).map (pyUrljoin base)).filter is_valid_url) ∧
      pyUrljoin "http://x.test/home" "/about" = "http://x.test/about" ∧
      extract_links "http://x.test/home" (linkDoc "/about") = ["http://x.test/about"] :=
  ⟨extract_links_eq, by decide, by decide⟩

/-- C9: with `maxPages = 0` the crawl returns no results and performs no
fetch at all, whatever the seed list. -/
theorem crawl_zero_budget (net : Net) (seeds : List String) :
    crawlResult net (mkCrawler 0) seeds = [] ∧
      (crawl net (mkCrawler 0) seeds).fetchLog = [] := by
  have h : crawl net (mkCrawler 0) seeds = mkCrawler 0 := by
    cases seeds with
    | nil => unfold crawl; rw [crawlLoop_nil]
    | cons u rest => unfold crawl; rw [crawlLoop_budget net (mkCrawler 0) u rest (by decide)]
  constructor
  · show (crawl net (mkCrawler 0) seeds).crawled_data = []
    rw [h]
    rfl
  · rw [h]
    rfl

/-- C10: the crawler instance's state persists across `crawl` calls:
`crawl([])` returns the previously accumulated results (not an empty
sequence), a URL visited earlier is skipped entirely by a later call, a
call whose budget is already exhausted returns the state unchanged, and
after a first run that collected one page a second `crawl([])` still
returns that page. -/
theorem crawl_state_persists :
    (∀ (net : Net) (s : CrawlerState), crawlResult net s [] = s.crawled_data) ∧
    (∀ (net : Net) (s : CrawlerState) (u : String),
        u ∈ s.visited_urls → crawl net s [u] = s) ∧
    (∀ (net : Net) (s : CrawlerState) (seeds : List String),
        s.max_pages ≤ s.page_count → crawl net s seeds = s) ∧
    crawlResult netA (crawl netA (mkCrawler 2) ["A"]) [] = [pdA] := by
  refine ⟨?_, ?_, ?_, ?_⟩
  · intro net s
    show (crawlLoop net s []).crawled_data = s.crawled_data
    rw [crawlLoop_nil]
  · intro net s u hu
    unfold crawl
    by_cases h : s.page_count < s.max_pages
    · rw [crawlLoop_skip net s u [] h hu, crawlLoop_nil]
    · rw [crawlLoop_budget net s u [] h]
  · intro net s seeds h
    unfold crawl
    cases seeds with
    | nil => rw [crawlLoop_nil]
    | cons u rest => rw [crawlLoop_budget net s u rest (by omega)]
  · rw [runA_eval]
    show (crawlLoop netA _ []).crawled_data = [pdA]
    rw [crawlLoop_nil]

/-- Witness for C10: a state with `A` visited is left unchanged by
`crawl(["A"])`, and a state whose budget is spent is left unchanged by any
call. -/
theorem crawl_state_persists_witness :
    ("A" ∈ (⟨2, ["A"], [], 1, [], [], []⟩ : CrawlerState).visited_urls ∧
        crawl netA ⟨2, ["A"], [], 1, [], [], []⟩ ["A"] = ⟨2, ["A"], [], 1, [], [], []⟩) ∧
      ((⟨1, [], [], 1, [], [], []⟩ : CrawlerState).max_pages ≤
          (⟨1, [], [], 1, [], [], []⟩ : CrawlerState).page_count ∧
        crawl netA ⟨1, [], [], 1, [], [], []⟩ ["B"] = ⟨1, [], [], 1, [], [], []⟩) :=
  ⟨⟨by decide, crawl_state_persists.2.1 netA ⟨2, ["A"], [], 1, [], [], []⟩ "A" (by decide)⟩,
   ⟨by decide, crawl_state_persists.2.2.1 netA ⟨1, [], [], 1, [], [], []⟩ ["B"] (by decide)⟩⟩

/-- C7: text extraction removes all script and style elements before taking
the visible text, and the code's whitespace cleanup (split into lines, trim
each line, split each trimmed line at `"  "`, trim each piece, discard
empty pieces, join with single spaces) coincides, for every input string,
with the spec's description (splitting on runs of two-or-more spaces): on
the parse of `<html><script>x</script><body>  Hello   World  </body></html>`
the result is exactly `"Hello World"`. -/
theorem extract_text_spec :
    (∀ doc : HDoc, extract_text doc =
        String.mk (specCleanText (getText (stripScriptStyle doc)).data)) ∧
      extract_text exampleDoc = "Hello World" := by
  constructor
  · intro doc
    unfold extract_text
    rw [cleanText_eq_specCleanText]
  · decide
